import Mathlib

/-
Shallow embedding of `src/overpass_along_gpx.py`.

The program reads locations from GPX files, splits them into chunks, builds one
Overpass query per chunk, executes each query with a retry loop, deduplicates
the returned nodes/ways into an accumulating store and finally writes a GPX
file.  Floats from the source are modelled as rationals (`ℚ`), Python ints as
`ℤ`/`ℕ`, Python sets as `Finset ℤ` and Python lists as `List`.  Network and
clock effects are modelled by an oracle `ℕ → Attempt` giving the outcome of
each `urlopen` attempt, and by recording the slept delays as a list.  An
uncaught Python exception is modelled as an `Option _ = none` result that
propagates outward.
-/

namespace Overpass

/-- Location consisting of latitude and longitude (dataclass `Location`). -/
structure Location where
  lat : ℚ
  lon : ℚ
deriving DecidableEq, Repr

/-- Node consisting of a single location (inner dataclass `Node`). -/
structure Node where
  id : ℤ
  loc : Location
deriving DecidableEq, Repr

/-- Way consisting of multiple locations (inner dataclass `Way`); `nodes` is the
list accumulated by `add_node` calls. -/
structure Way where
  id : ℤ
  nodes : List Location
deriving DecidableEq, Repr

/-- One element of the JSON `elements` array of an Overpass response:
`type`/`id` plus `lat`,`lon` for nodes and a `geometry` list for ways.
`other` stands for any element whose `type` is neither `node` nor `way`. -/
inductive Element where
  | node (id : ℤ) (lat lon : ℚ)
  | way (id : ℤ) (geometry : List Location)
  | other
deriving DecidableEq, Repr

/-- Decoded JSON response of the Overpass API: an optional top-level `remark`
string and the `elements` array. -/
structure Response where
  remark : Option String
  elements : List Element
deriving DecidableEq, Repr

/-- Mutable state of the `OverpassAlongGPX` object that the query pipeline
touches: output lists, seen-id sets and the failure flag. -/
structure Store where
  nodes_out : List Node
  ways_out : List Way
  node_ids : Finset ℤ
  way_ids : Finset ℤ
  failure : Bool
deriving DecidableEq

/-- Fresh store as created by `OverpassAlongGPX(...)`: empty lists, empty sets,
`failure = False`. -/
def emptyStore : Store := ⟨[], [], ∅, ∅, false⟩

/-- One iteration of the `for element in jresponse['elements']` loop of
`process_overpass_response`.  The accumulator carries the store together with
the local counters `node_count` and `way_count`. -/
def processElement : Store × ℕ × ℕ → Element → Store × ℕ × ℕ
  | (s, node_count, way_count), .node i la lo =>
    if i ∈ s.node_ids then (s, node_count, way_count)
    else ({ s with node_ids := insert i s.node_ids,
                   nodes_out := s.nodes_out ++ [⟨i, ⟨la, lo⟩⟩] },
          node_count + 1, way_count)
  | (s, node_count, way_count), .way i geometry =>
    if i ∈ s.way_ids then (s, node_count, way_count)
    else ({ s with way_ids := insert i s.way_ids,
                   ways_out := s.ways_out ++ [⟨i, geometry⟩] },
          node_count, way_count + 1)
  | acc, .other => acc

/-- `process_overpass_response`: fold the element loop over the payload,
returning the updated store and the per-call `node_count`/`way_count`. -/
def process_overpass_response (s : Store) (jresponse : Response) : Store × ℕ × ℕ :=
  jresponse.elements.foldl processElement (s, 0, 0)

/-- The chunk list iterated by `perform_overpass_queries`: `chunk_size` and
`num_queries` per the source (`math.ceil` modelled as exact ceiling division),
chunk `i` being the slice `locations_in[start:end]` with `start = i * chunk_size`
and `end = min(start + chunk_size, len(locations_in))`. -/
def chunkList {α : Type} (locations_in : List α) (limit : ℤ) : List (List α) :=
  let n := locations_in.length
  let chunk_size : ℕ := if limit ≤ 0 then n else limit.toNat
  let num_queries : ℕ := if limit ≤ 0 then 1 else (n + limit.toNat - 1) / limit.toNat
  (List.range num_queries).map fun i =>
    (locations_in.drop (i * chunk_size)).take
      (min (i * chunk_size + chunk_size) n - i * chunk_size)

/-- String form of a location, `f'{self.lat},{self.lon}'`. -/
def Location.str (l : Location) : String :=
  toString l.lat ++ "," ++ toString l.lon

/-- `build_overpass_query`: header with output format and timeout, one clause
per query fragment around the joined coordinate list, then `out geom;`. -/
def build_overpass_query (locations : List Location) (queries : List String)
    (timeout distance : ℤ) : String :=
  let latlon := String.intercalate ("," ) (locations.map Location.str)
  let header := "[out:json][timeout:" ++ toString timeout ++ "];\n(\n"
  let clauses := String.join (queries.map fun q =>
    "    " ++ q ++ "(around:" ++ toString distance ++ "," ++ latlon ++ ");\n")
  header ++ clauses ++ ");\nout geom;"

/-- Outcome of one `urllib.request.urlopen` attempt, as seen by the retry loop
of `perform_overpass_query`:
* `ok r` — HTTP success and `json.load` decodes the body to `r`;
* `undecodable` — HTTP success but `json.load` raises;
* `urlError code` — `urllib.error.URLError`; `code = some c` when the error is
  an `HTTPError` carrying HTTP status `c`, `none` for a plain connection-level
  `URLError` (which has no `code` attribute);
* `connError` — an `http.client` connection exception escaping `urlopen`
  unwrapped. -/
inductive Attempt where
  | ok (jresponse : Response)
  | undecodable
  | urlError (code : Option ℕ)
  | connError
deriving DecidableEq, Repr

/-- Result of the retry loop: either a decoded remark-free response, or all
attempts failed (`success` stayed `False`), or an uncaught exception. -/
inductive QueryOutcome where
  | success (jresponse : Response)
  | exhausted
  | crash
deriving DecidableEq, Repr

/-- The `for i in range(0, self.retries + 1)` retry loop of
`perform_overpass_query`, with `fuel` remaining iterations and `i` the current
attempt index.  Returns the outcome, the number of `urlopen` calls made and the
list of delays slept (in order).  Each iteration starts with `delay = 0.1`.

* a decoded response without `remark` sets `success` and breaks (no sleep);
* a decoded response with a `remark` prints it and falls through to the
  failure print and `time.sleep(delay)` — a failed attempt;
* `json.load` failure enters `except Exception as e`, whose body evaluates the
  undefined name `ex`; the resulting `NameError` matches neither outer
  `except` clause and escapes — modelled as `crash`;
* a `URLError` with an HTTP status sleeps 20 on status 429 and 0.1 otherwise;
* a `URLError` without a `code` attribute makes `429 == ex.code` raise
  `AttributeError` (uncaught) — modelled as `crash`;
* an unwrapped connection exception reaches the
  `except http.client.ConnectionError` clause, whose evaluation raises
  `AttributeError` because `http.client` has no such attribute — `crash`. -/
def queryLoop (oracle : ℕ → Attempt) : ℕ → ℕ → QueryOutcome × ℕ × List ℚ
  | _, 0 => (.exhausted, 0, [])
  | i, fuel + 1 =>
    match oracle i with
    | .ok r =>
      match r.remark with
      | some _ =>
        let rest := queryLoop oracle (i + 1) fuel
        (rest.1, rest.2.1 + 1, (1 / 10 : ℚ) :: rest.2.2)
      | none => (.success r, 1, [])
    | .undecodable => (.crash, 1, [])
    | .urlError (some c) =>
      let rest := queryLoop oracle (i + 1) fuel
      (rest.1, rest.2.1 + 1, (if c = 429 then 20 else 1 / 10 : ℚ) :: rest.2.2)
    | .urlError none => (.crash, 1, [])
    | .connError => (.crash, 1, [])

/-- Observable result of one `perform_overpass_query` call: the store after the
call (`none` when an exception escaped), the number of network attempts, the
slept delays and the query texts printed. -/
structure QueryResult where
  store : Option Store
  attempts : ℕ
  delays : List ℚ
  printed : List String
deriving DecidableEq

/-- `perform_overpass_query`: build the full query, print it when `dry_run` or
`verbose > 1`, return immediately on `dry_run`; otherwise run the retry loop,
then either set `failure` (all attempts failed) or process the successful
response into the store. -/
def perform_overpass_query (s : Store) (locations : List Location)
    (queries : List String) (timeout distance : ℤ) (oracle : ℕ → Attempt)
    (retries : ℕ) (verbose : ℕ) (dry_run : Bool) : QueryResult :=
  let full_query := build_overpass_query locations queries timeout distance
  let printed := if dry_run = true ∨ 1 < verbose then [full_query] else []
  if dry_run then ⟨some s, 0, [], printed⟩
  else
    match queryLoop oracle 0 (retries + 1) with
    | (.success r, a, d) => ⟨some (process_overpass_response s r).1, a, d, printed⟩
    | (.exhausted, a, d) => ⟨some { s with failure := true }, a, d, printed⟩
    | (.crash, a, d) => ⟨none, a, d, printed⟩

/-- Observable result of `perform_overpass_queries` (and of `run`): final store
(`none` when an exception escaped), total attempts, delays, printed query texts
and the number of chunk queries that were started. -/
structure OrchResult where
  store : Option Store
  attempts : ℕ
  delays : List ℚ
  printed : List String
  chunksRun : ℕ
deriving DecidableEq

/-- The chunk loop of `perform_overpass_queries`: run `perform_overpass_query`
on each chunk in order, threading the store; an escaping exception aborts the
remaining chunks.  `oracles i` is the attempt oracle of chunk `i`. -/
def runChunks (queries : List String) (timeout distance : ℤ)
    (oracles : ℕ → ℕ → Attempt) (retries verbose : ℕ) (dry_run : Bool) :
    Store → List (List Location) → ℕ → OrchResult
  | s, [], _ => ⟨some s, 0, [], [], 0⟩
  | s, chunk :: rest, i =>
    let q := perform_overpass_query s chunk queries timeout distance (oracles i)
      retries verbose dry_run
    match q.store with
    | none => ⟨none, q.attempts, q.delays, q.printed, 1⟩
    | some s' =>
      let r := runChunks queries timeout distance oracles retries verbose dry_run
        s' rest (i + 1)
      ⟨r.store, q.attempts + r.attempts, q.delays ++ r.delays,
       q.printed ++ r.printed, r.chunksRun + 1⟩

/-- `perform_overpass_queries`: iterate the chunk slices of `locations_in`. -/
def perform_overpass_queries (s : Store) (locations_in : List Location)
    (queries : List String) (timeout distance limit : ℤ)
    (oracles : ℕ → ℕ → Attempt) (retries verbose : ℕ) (dry_run : Bool) :
    OrchResult :=
  runChunks queries timeout distance oracles retries verbose dry_run s
    (chunkList locations_in limit) 0

/-- Observable result of `run`: the orchestrator observables plus whether
`write_result` was called and whether the incompleteness warning was printed. -/
structure RunOutcome where
  store : Option Store
  attempts : ℕ
  delays : List ℚ
  printed : List String
  chunksRun : ℕ
  wrote : Bool
  warned : Bool
deriving DecidableEq

/-- The `run` method, starting after GPX parsing with the obtained locations:
return early when no locations were found; otherwise perform the chunked
queries, return before writing when `dry_run`, else write the result exactly
when some node or way was obtained, and finally warn when `failure` is set. -/
def run (locations_in : List Location) (queries : List String)
    (timeout distance limit : ℤ) (oracles : ℕ → ℕ → Attempt)
    (retries verbose : ℕ) (dry_run : Bool) : RunOutcome :=
  if locations_in = [] then ⟨some emptyStore, 0, [], [], 0, false, false⟩
  else
    let o := perform_overpass_queries emptyStore locations_in queries timeout
      distance limit oracles retries verbose dry_run
    match o.store with
    | none => ⟨none, o.attempts, o.delays, o.printed, o.chunksRun, false, false⟩
    | some s =>
      if dry_run then ⟨some s, o.attempts, o.delays, o.printed, o.chunksRun, false, false⟩
      else ⟨some s, o.attempts, o.delays, o.printed, o.chunksRun,
            decide (s.nodes_out ≠ [] ∨ s.ways_out ≠ []), s.failure⟩

/-- Substring containment, Python's `needle in line` for strings. -/
def containsSub (needle : List Char) : List Char → Bool
  | [] => needle.isPrefixOf []
  | c :: rest => needle.isPrefixOf (c :: rest) || containsSub needle rest

/-- Maximal digit prefix of a character list and the remainder, the greedy
match of `\d+` at the current position. -/
def digitSpan : List Char → List Char × List Char
  | [] => ([], [])
  | c :: rest =>
    if c.isDigit then
      let p := digitSpan rest
      (c :: p.1, p.2)
    else ([], c :: rest)

/-- Numeric value of a digit string. -/
def digitsVal (ds : List Char) : ℕ :=
  ds.foldl (fun a c => 10 * a + (c.toNat - '0'.toNat)) 0

/-- Match the regex `lit` `\d+\.\d+"` at the start of `cs` and return the value
`float()` would produce for the quoted decimal (`group(0).split('"')[1]`).
Since a digit is never `.` or `"`, the greedy `\d+` needs no backtracking and
maximal munch is exact. -/
def matchDecimalAt (lit : List Char) (cs : List Char) : Option ℚ :=
  if lit.isPrefixOf cs then
    let p1 := digitSpan (cs.drop lit.length)
    if p1.1 = [] then none
    else
      match p1.2 with
      | '.' :: rest2 =>
        let p2 := digitSpan rest2
        if p2.1 = [] then none
        else
          match p2.2 with
          | '"' :: _ => some ((digitsVal p1.1 : ℚ) + (digitsVal p2.1 : ℚ) / (10 : ℚ) ^ p2.1.length)
          | _ => none
      | _ => none
  else none

/-- Python `re.search`: try the pattern at every position left to right and
return the value of the leftmost match. -/
def reSearchDecimal (lit : List Char) : List Char → Option ℚ
  | [] => matchDecimalAt lit []
  | c :: rest =>
    match matchDecimalAt lit (c :: rest) with
    | some q => some q
    | none => reSearchDecimal lit rest

/-- The literal prefix of the latitude pattern `lat="\d+\.\d+"`. -/
def latPat : List Char := ['l', 'a', 't', '=', '"']

/-- The literal prefix of the longitude pattern `lon="\d+\.\d+"`. -/
def lonPat : List Char := ['l', 'o', 'n', '=', '"']

/-- The `<trkpt` tag marker. -/
def trkptTag : List Char := ['<', 't', 'r', 'k', 'p', 't']

/-- The `<wpt` tag marker. -/
def wptTag : List Char := ['<', 'w', 'p', 't']

/-- The `<rtept` tag marker. -/
def rteptTag : List Char := ['<', 'r', 't', 'e', 'p', 't']

/-- One iteration of the line loop of `parse_gpx_file`.  The second guard
mirrors the source's operator precedence: `not 'lat="' in line and 'lon="' in
line` skips only when `lat="` is absent AND `lon="` is present. -/
def parseGpxLine (line : List Char) : Option Location :=
  if ¬ (containsSub trkptTag line ∨ containsSub wptTag line ∨ containsSub rteptTag line)
  then none
  else if ¬ containsSub latPat line = true ∧ containsSub lonPat line = true then none
  else
    match reSearchDecimal latPat line with
    | none => none
    | some la =>
      match reSearchDecimal lonPat line with
      | none => none
      | some lo => some ⟨la, lo⟩

/-- `parse_gpx_file` over the lines of the input files: append a location for
every line the filters and both regex searches accept. -/
def parse_gpx_file (lines : List (List Char)) : List Location :=
  lines.filterMap parseGpxLine

end Overpass

namespace Overpass

/-- A Python slice `l[s : min (s+cs) (len l)]` takes the same elements as
`take cs` after `drop s`. -/
theorem slice_take {α : Type} (l : List α) (s cs : ℕ) :
    (l.drop s).take (min (s + cs) l.length - s) = (l.drop s).take cs := by
  apply List.take_eq_take.mpr
  simp only [List.length_drop]
  omega

/-- Concatenating the `k` uniform slices recovers the first `k * cs` elements. -/
theorem chunkJoin {α : Type} (cs : ℕ) :
    ∀ (k : ℕ) (l : List α),
      ((List.range k).map fun i => (l.drop (i * cs)).take cs).flatten = l.take (k * cs)
  | 0, l => by simp
  | k + 1, l => by
    rw [List.range_succ, List.map_append, List.flatten_append, chunkJoin cs k l]
    simp only [List.map_cons, List.map_nil, List.flatten_cons, List.flatten_nil,
      List.append_nil, Nat.succ_mul, List.take_add]

/-- For a positive limit the chunk list consists of the uniform `take`/`drop`
slices of width `limit`. -/
theorem chunkList_pos {α : Type} (l : List α) (limit : ℤ) (h : 0 < limit) :
    chunkList l limit =
      (List.range ((l.length + limit.toNat - 1) / limit.toNat)).map
        fun i => (l.drop (i * limit.toNat)).take limit.toNat := by
  have h' : ¬ limit ≤ 0 := not_le.mpr h
  simp only [chunkList, if_neg h']
  exact List.map_congr_left fun i _ => slice_take l (i * limit.toNat) limit.toNat

/-- C1: for `chunkLimit > 0` the orchestrator `perform_overpass_queries`
iterates `ceil(n / chunkLimit)` chunks that are contiguous, non-overlapping,
in original order and cover every input location exactly once (their
concatenation is the input), every chunk except possibly the last having
exactly `chunkLimit` elements and every chunk being nonempty and at most
`chunkLimit` long; for `chunkLimit ≤ 0` there is exactly one chunk holding all
locations. -/
theorem perform_overpass_queries_chunk_partition
    (locations_in : List Location) (limit : ℤ) :
    (0 < limit →
      (chunkList locations_in limit).length
          = (locations_in.length + limit.toNat - 1) / limit.toNat ∧
      (chunkList locations_in limit).flatten = locations_in ∧
      (∀ i, i + 1 < (chunkList locations_in limit).length →
          ∀ h : i < (chunkList locations_in limit).length,
          ((chunkList locations_in limit).get ⟨i, h⟩).length = limit.toNat) ∧
      ∀ c ∈ chunkList locations_in limit, 0 < c.length ∧ c.length ≤ limit.toNat)
    ∧ (limit ≤ 0 → chunkList locations_in limit = [locations_in]) := by
  constructor
  · intro hl
    have hcs : 0 < limit.toNat := by omega
    rw [chunkList_pos _ _ hl]
    refine ⟨by simp, ?_, ?_, ?_⟩
    · rw [chunkJoin]
      apply List.take_of_length_le
      have h1 := Nat.lt_mul_div_succ (locations_in.length + limit.toNat - 1) hcs
      rw [Nat.mul_succ] at h1
      rw [mul_comm]
      generalize limit.toNat * ((locations_in.length + limit.toNat - 1) / limit.toNat) = m
        at h1 ⊢
      omega
    · intro i hi1 hi
      simp only [List.length_map, List.length_range] at hi1
      simp only [List.get_eq_getElem, List.getElem_map, List.getElem_range,
        List.length_take, List.length_drop]
      have h2 : ¬ ((locations_in.length + limit.toNat - 1) / limit.toNat ≤ i + 1) := by
        omega
      have h3 : ¬ (locations_in.length + limit.toNat - 1
          ≤ limit.toNat * (i + 1) + (limit.toNat - 1)) :=
        fun hh => h2 ((Nat.div_le_iff_le_mul_add_pred hcs).mpr hh)
      rw [Nat.mul_succ] at h3
      rw [mul_comm i limit.toNat]
      generalize limit.toNat * i = m at h3 ⊢
      omega
    · intro c hc
      rw [List.mem_map] at hc
      obtain ⟨i, hi, rfl⟩ := hc
      rw [List.mem_range] at hi
      simp only [List.length_take, List.length_drop]
      have h2 : ¬ ((locations_in.length + limit.toNat - 1) / limit.toNat ≤ i) := by omega
      have h3 : ¬ (locations_in.length + limit.toNat - 1
          ≤ limit.toNat * i + (limit.toNat - 1)) :=
        fun hh => h2 ((Nat.div_le_iff_le_mul_add_pred hcs).mpr hh)
      rw [mul_comm i limit.toNat]
      generalize limit.toNat * i = m at h3 ⊢
      omega
  · intro hl
    have hr : List.range 1 = [0] := by decide
    simp only [chunkList, if_pos hl, hr, List.map_cons, List.map_nil,
      Nat.zero_mul, List.drop_zero, Nat.zero_add]
    rw [Nat.min_self, Nat.sub_zero, List.take_length]

/-- Three sample locations for concrete runs. -/
def sampleLocs : List Location := [⟨51, 13⟩, ⟨51, 14⟩, ⟨52, 13⟩]

/-- Witness for C1: with three locations and `chunkLimit = 2` the hypotheses
hold and the chunks concatenate back to the input, in two chunks. -/
theorem perform_overpass_queries_chunk_partition_witness :
    (0 : ℤ) < 2 ∧
      (chunkList sampleLocs (2 : ℤ)).flatten = sampleLocs ∧
      (chunkList sampleLocs (2 : ℤ)).length = (sampleLocs.length + (2 : ℤ).toNat - 1) / (2 : ℤ).toNat :=
  ⟨by decide,
   ((perform_overpass_queries_chunk_partition sampleLocs 2).1 (by decide)).2.1,
   ((perform_overpass_queries_chunk_partition sampleLocs 2).1 (by decide)).1⟩

end Overpass

namespace Overpass

/-- A feature element counts as already seen by a store when its id is in the
matching seen-id set. -/
def elemSeen (t : Store) : Element → Prop
  | .node i _ _ => i ∈ t.node_ids
  | .way i _ => i ∈ t.way_ids
  | .other => True

/-- One processing step never removes ids from the seen-id sets. -/
theorem processElement_ids_mono (acc : Store × ℕ × ℕ) (e : Element) :
    acc.1.node_ids ⊆ (processElement acc e).1.node_ids ∧
    acc.1.way_ids ⊆ (processElement acc e).1.way_ids := by
  obtain ⟨s, nc, wc⟩ := acc
  cases e with
  | node i la lo =>
    by_cases hi : i ∈ s.node_ids <;>
      simp [processElement, hi, Finset.subset_insert]
  | way i g =>
    by_cases hi : i ∈ s.way_ids <;>
      simp [processElement, hi, Finset.subset_insert]
  | other => simp [processElement]

/-- The element fold never removes ids from the seen-id sets. -/
theorem foldl_ids_mono :
    ∀ (es : List Element) (acc : Store × ℕ × ℕ),
      acc.1.node_ids ⊆ (List.foldl processElement acc es).1.node_ids ∧
      acc.1.way_ids ⊆ (List.foldl processElement acc es).1.way_ids
  | [], acc => ⟨Finset.Subset.refl _, Finset.Subset.refl _⟩
  | e :: es, acc => by
    have h1 := processElement_ids_mono acc e
    have h2 := foldl_ids_mono es (processElement acc e)
    exact ⟨h1.1.trans h2.1, h1.2.trans h2.2⟩

/-- `elemSeen` is monotone in the seen-id sets. -/
theorem elemSeen_mono {t t' : Store} (hn : t.node_ids ⊆ t'.node_ids)
    (hw : t.way_ids ⊆ t'.way_ids) (e : Element) (h : elemSeen t e) :
    elemSeen t' e := by
  cases e with
  | node i la lo => exact hn h
  | way i g => exact hw h
  | other => trivial

/-- After folding over a list of elements, every element of the list is seen. -/
theorem foldl_elemSeen :
    ∀ (es : List Element) (acc : Store × ℕ × ℕ) (e : Element), e ∈ es →
      elemSeen (List.foldl processElement acc es).1 e
  | e' :: es, acc, e, he => by
    rcases List.mem_cons.mp he with rfl | he'
    · have hstep : elemSeen (processElement acc e).1 e := by
        obtain ⟨s, nc, wc⟩ := acc
        cases e with
        | node i la lo =>
          by_cases hi : i ∈ s.node_ids <;>
            simp [processElement, elemSeen, hi]
        | way i g =>
          by_cases hi : i ∈ s.way_ids <;>
            simp [processElement, elemSeen, hi]
        | other => trivial
      have hm := foldl_ids_mono es (processElement acc e)
      exact elemSeen_mono hm.1 hm.2 e hstep
    · exact foldl_elemSeen es (processElement acc e') e he'

/-- Folding over elements that are all already seen is the identity on the
accumulator. -/
theorem foldl_all_seen :
    ∀ (es : List Element) (t : Store) (nc wc : ℕ),
      (∀ e ∈ es, elemSeen t e) →
      List.foldl processElement (t, nc, wc) es = (t, nc, wc)
  | [], _, _, _, _ => rfl
  | e :: es, t, nc, wc, h => by
    have hstep : processElement (t, nc, wc) e = (t, nc, wc) := by
      have he := h e (List.mem_cons_self e es)
      cases e with
      | node i la lo => simp [processElement, elemSeen] at he ⊢; simp [he]
      | way i g => simp [processElement, elemSeen] at he ⊢; simp [he]
      | other => rfl
    rw [List.foldl_cons, hstep]
    exact foldl_all_seen es t nc wc fun e' he' => h e' (List.mem_cons_of_mem e he')

/-- C2: processing a node (resp. way) feature whose id is already in the seen
node-id (resp. way-id) set leaves the store and the added-counts unchanged,
and consequently processing a whole payload a second time returns the store of
the first pass unchanged, with zero added nodes and ways. -/
theorem process_overpass_response_dedup :
    (∀ (s : Store) (node_count way_count : ℕ) (i : ℤ) (la lo : ℚ),
        i ∈ s.node_ids →
        processElement (s, node_count, way_count) (.node i la lo)
          = (s, node_count, way_count)) ∧
    (∀ (s : Store) (node_count way_count : ℕ) (i : ℤ) (geometry : List Location),
        i ∈ s.way_ids →
        processElement (s, node_count, way_count) (.way i geometry)
          = (s, node_count, way_count)) ∧
    ∀ (s : Store) (r : Response),
      process_overpass_response (process_overpass_response s r).1 r
        = ((process_overpass_response s r).1, 0, 0) := by
  refine ⟨?_, ?_, ?_⟩
  · intro s nc wc i la lo hi
    simp [processElement, hi]
  · intro s nc wc i g hi
    simp [processElement, hi]
  · intro s r
    exact foldl_all_seen r.elements _ 0 0
      fun e he => foldl_elemSeen r.elements (s, 0, 0) e he

/-- A store that already holds node id 1. -/
def dupStore : Store := ⟨[⟨1, ⟨51, 13⟩⟩], [], {1}, ∅, false⟩

/-- Witness for C2: node id 1 is already seen by `dupStore`, and processing it
again changes nothing. -/
theorem process_overpass_response_dedup_witness :
    (1 : ℤ) ∈ dupStore.node_ids ∧
    processElement (dupStore, 0, 0) (.node 1 51 13) = (dupStore, 0, 0) :=
  ⟨by decide, process_overpass_response_dedup.1 dupStore 0 0 1 51 13 (by decide)⟩

end Overpass

namespace Overpass

/-- Node ids of a payload's element list, in service-returned order. -/
def nodeIdsOf (es : List Element) : List ℤ :=
  es.filterMap fun e =>
    match e with
    | .node i _ _ => some i
    | _ => none

/-- Way ids of a payload's element list, in service-returned order. -/
def wayIdsOf (es : List Element) : List ℤ :=
  es.filterMap fun e =>
    match e with
    | .way i _ => some i
    | _ => none

/-- First occurrence of each id not yet in `seen`, keeping first-seen order. -/
def firstOccur (seen : Finset ℤ) : List ℤ → List ℤ
  | [] => []
  | x :: xs =>
    if x ∈ seen then firstOccur seen xs
    else x :: firstOccur (insert x seen) xs

/-- Membership in `firstOccur`: exactly the list's ids outside `seen`. -/
theorem firstOccur_mem :
    ∀ (xs : List ℤ) (seen : Finset ℤ) (a : ℤ),
      a ∈ firstOccur seen xs ↔ a ∈ xs ∧ a ∉ seen := by
  intro xs
  induction xs with
  | nil => simp [firstOccur]
  | cons x xs ih =>
    intro seen a
    by_cases hx : x ∈ seen
    · simp only [firstOccur, if_pos hx, ih, List.mem_cons]
      constructor
      · tauto
      · rintro ⟨rfl | ha, hs⟩
        · exact absurd hx hs
        · exact ⟨ha, hs⟩
    · simp only [firstOccur, if_neg hx, List.mem_cons, ih, Finset.mem_insert]
      by_cases hax : a = x
      · subst hax; tauto
      · tauto

/-- `firstOccur` never repeats an id. -/
theorem firstOccur_nodup :
    ∀ (xs : List ℤ) (seen : Finset ℤ), (firstOccur seen xs).Nodup := by
  intro xs
  induction xs with
  | nil => intro seen; simp [firstOccur]
  | cons x xs ih =>
    intro seen
    by_cases hx : x ∈ seen
    · simpa [firstOccur, hx] using ih seen
    · rw [firstOccur, if_neg hx, List.nodup_cons]
      refine ⟨?_, ih _⟩
      intro hmem
      exact ((firstOccur_mem xs (insert x seen) x).mp hmem).2 (Finset.mem_insert_self x seen)

/-- The ids delivered by `firstOccur` as a set. -/
theorem firstOccur_toFinset (xs : List ℤ) (seen : Finset ℤ) :
    (firstOccur seen xs).toFinset = xs.toFinset \ seen := by
  ext a
  simp [firstOccur_mem, Finset.mem_sdiff]

/-- `firstOccur` over a concatenation: the second part is filtered against the
ids already delivered or seen. -/
theorem firstOccur_append :
    ∀ (xs ys : List ℤ) (seen : Finset ℤ),
      firstOccur seen (xs ++ ys)
        = firstOccur seen xs ++ firstOccur (seen ∪ xs.toFinset) ys := by
  intro xs
  induction xs with
  | nil => intro ys seen; simp [firstOccur]
  | cons x xs ih =>
    intro ys seen
    by_cases hx : x ∈ seen
    · have hset : seen ∪ (x :: xs).toFinset = seen ∪ xs.toFinset := by
        simp only [List.toFinset_cons, Finset.union_insert]
        exact Finset.insert_eq_self.mpr (Finset.mem_union_left _ hx)
      simp only [List.cons_append, firstOccur, if_pos hx, hset]
      exact ih ys seen
    · have hset : insert x seen ∪ xs.toFinset = seen ∪ (x :: xs).toFinset := by
        simp only [List.toFinset_cons, Finset.insert_union, Finset.union_insert]
      rw [List.cons_append, firstOccur, if_neg hx, ih ys (insert x seen), hset,
        firstOccur, if_neg hx, List.cons_append]

/-- Effect of the element fold on the output lists and seen-id sets: new ids
are appended in first-seen order and the seen sets grow by exactly the
payload's ids. -/
theorem process_elems_spec :
    ∀ (es : List Element) (s : Store) (nc wc : ℕ),
      (List.foldl processElement (s, nc, wc) es).1.nodes_out.map Node.id
          = s.nodes_out.map Node.id ++ firstOccur s.node_ids (nodeIdsOf es) ∧
      (List.foldl processElement (s, nc, wc) es).1.node_ids
          = s.node_ids ∪ (nodeIdsOf es).toFinset ∧
      (List.foldl processElement (s, nc, wc) es).1.ways_out.map Way.id
          = s.ways_out.map Way.id ++ firstOccur s.way_ids (wayIdsOf es) ∧
      (List.foldl processElement (s, nc, wc) es).1.way_ids
          = s.way_ids ∪ (wayIdsOf es).toFinset := by
  intro es
  induction es with
  | nil =>
    intro s nc wc
    simp [nodeIdsOf, wayIdsOf, firstOccur]
  | cons e es ih =>
    intro s nc wc
    cases e with
    | node i la lo =>
      by_cases hi : i ∈ s.node_ids
      · have hstep : processElement (s, nc, wc) (.node i la lo) = (s, nc, wc) := by
          simp [processElement, hi]
        have hids : nodeIdsOf (Element.node i la lo :: es) = i :: nodeIdsOf es := by
          simp [nodeIdsOf]
        have hwids : wayIdsOf (Element.node i la lo :: es) = wayIdsOf es := by
          simp [wayIdsOf]
        have hset : s.node_ids ∪ (i :: nodeIdsOf es).toFinset
            = s.node_ids ∪ (nodeIdsOf es).toFinset := by
          simp only [List.toFinset_cons, Finset.union_insert]
          exact Finset.insert_eq_self.mpr (Finset.mem_union_left _ hi)
        rw [List.foldl_cons, hstep, hids, hwids, hset, firstOccur, if_pos hi]
        exact ih s nc wc
      · have hstep : processElement (s, nc, wc) (.node i la lo)
            = ({ s with node_ids := insert i s.node_ids,
                        nodes_out := s.nodes_out ++ [⟨i, ⟨la, lo⟩⟩] }, nc + 1, wc) := by
          simp [processElement, hi]
        have ih' := ih { s with node_ids := insert i s.node_ids,
                                nodes_out := s.nodes_out ++ [⟨i, ⟨la, lo⟩⟩] } (nc + 1) wc
        rw [List.foldl_cons, hstep]
        refine ⟨?_, ?_, ?_, ?_⟩
        · rw [ih'.1]
          simp [nodeIdsOf, firstOccur, if_neg hi]
        · rw [ih'.2.1]
          simp only [nodeIdsOf, List.filterMap_cons]
          simp only [List.toFinset_cons, Finset.insert_union, Finset.union_insert]
        · rw [ih'.2.2.1]
          simp [wayIdsOf]
        · rw [ih'.2.2.2]
          simp [wayIdsOf]
    | way i g =>
      by_cases hi : i ∈ s.way_ids
      · have hstep : processElement (s, nc, wc) (.way i g) = (s, nc, wc) := by
          simp [processElement, hi]
        have hids : wayIdsOf (Element.way i g :: es) = i :: wayIdsOf es := by
          simp [wayIdsOf]
        have hnids : nodeIdsOf (Element.way i g :: es) = nodeIdsOf es := by
          simp [nodeIdsOf]
        have hset : s.way_ids ∪ (i :: wayIdsOf es).toFinset
            = s.way_ids ∪ (wayIdsOf es).toFinset := by
          simp only [List.toFinset_cons, Finset.union_insert]
          exact Finset.insert_eq_self.mpr (Finset.mem_union_left _ hi)
        rw [List.foldl_cons, hstep, hids, hnids, hset, firstOccur, if_pos hi]
        exact ih s nc wc
      · have hstep : processElement (s, nc, wc) (.way i g)
            = ({ s with way_ids := insert i s.way_ids,
                        ways_out := s.ways_out ++ [⟨i, g⟩] }, nc, wc + 1) := by
          simp [processElement, hi]
        have ih' := ih { s with way_ids := insert i s.way_ids,
                                ways_out := s.ways_out ++ [⟨i, g⟩] } nc (wc + 1)
        rw [List.foldl_cons, hstep]
        refine ⟨?_, ?_, ?_, ?_⟩
        · rw [ih'.1]
          simp [nodeIdsOf]
        · rw [ih'.2.1]
          simp [nodeIdsOf]
        · rw [ih'.2.2.1]
          simp [wayIdsOf, firstOccur, if_neg hi]
        · rw [ih'.2.2.2]
          simp only [wayIdsOf, List.filterMap_cons]
          simp only [List.toFinset_cons, Finset.insert_union, Finset.union_insert]
    | other =>
      have hstep : processElement (s, nc, wc) .other = (s, nc, wc) := rfl
      have hids : nodeIdsOf (Element.other :: es) = nodeIdsOf es := by simp [nodeIdsOf]
      have hwids : wayIdsOf (Element.other :: es) = wayIdsOf es := by simp [wayIdsOf]
      rw [List.foldl_cons, hstep, hids, hwids]
      exact ih s nc wc

end Overpass

namespace Overpass

/-- The store after processing a sequence of decoded payloads starting from a
given store (the successful chunk responses of a run, in order). -/
def runPayloadsFrom (s : Store) (rs : List Response) : Store :=
  rs.foldl (fun t r => (process_overpass_response t r).1) s

/-- The store after processing a sequence of decoded payloads in a fresh run. -/
def runPayloads (rs : List Response) : Store :=
  runPayloadsFrom emptyStore rs

/-- `nodeIdsOf` distributes over concatenation. -/
theorem nodeIdsOf_append (a b : List Element) :
    nodeIdsOf (a ++ b) = nodeIdsOf a ++ nodeIdsOf b := by
  simp [nodeIdsOf]

/-- `wayIdsOf` distributes over concatenation. -/
theorem wayIdsOf_append (a b : List Element) :
    wayIdsOf (a ++ b) = wayIdsOf a ++ wayIdsOf b := by
  simp [wayIdsOf]

/-- Multi-payload version of `process_elems_spec`: across any sequence of
processed payloads, new ids are appended in first-seen order and the seen
sets track exactly the processed ids. -/
theorem runPayloadsFrom_spec :
    ∀ (rs : List Response) (s : Store),
      (runPayloadsFrom s rs).nodes_out.map Node.id
          = s.nodes_out.map Node.id
            ++ firstOccur s.node_ids (nodeIdsOf (rs.flatMap Response.elements)) ∧
      (runPayloadsFrom s rs).node_ids
          = s.node_ids ∪ (nodeIdsOf (rs.flatMap Response.elements)).toFinset ∧
      (runPayloadsFrom s rs).ways_out.map Way.id
          = s.ways_out.map Way.id
            ++ firstOccur s.way_ids (wayIdsOf (rs.flatMap Response.elements)) ∧
      (runPayloadsFrom s rs).way_ids
          = s.way_ids ∪ (wayIdsOf (rs.flatMap Response.elements)).toFinset := by
  intro rs
  induction rs with
  | nil =>
    intro s
    simp [runPayloadsFrom, nodeIdsOf, wayIdsOf, firstOccur]
  | cons r rs ih =>
    intro s
    have hfold : runPayloadsFrom s (r :: rs)
        = runPayloadsFrom (process_overpass_response s r).1 rs := rfl
    have hp := process_elems_spec r.elements s 0 0
    have ih' := ih (process_overpass_response s r).1
    have hflat : (r :: rs).flatMap Response.elements
        = r.elements ++ rs.flatMap Response.elements := rfl
    rw [hfold, hflat]
    refine ⟨?_, ?_, ?_, ?_⟩
    · rw [ih'.1]
      show (process_overpass_response s r).1.nodes_out.map Node.id ++ _ = _
      rw [nodeIdsOf_append, firstOccur_append]
      rw [show (process_overpass_response s r).1.nodes_out.map Node.id
            = s.nodes_out.map Node.id ++ firstOccur s.node_ids (nodeIdsOf r.elements)
          from hp.1]
      rw [show (process_overpass_response s r).1.node_ids
            = s.node_ids ∪ (nodeIdsOf r.elements).toFinset from hp.2.1]
      rw [List.append_assoc]
    · rw [ih'.2.1, nodeIdsOf_append]
      rw [show (process_overpass_response s r).1.node_ids
            = s.node_ids ∪ (nodeIdsOf r.elements).toFinset from hp.2.1]
      rw [List.toFinset_append, Finset.union_assoc]
    · rw [ih'.2.2.1]
      rw [wayIdsOf_append, firstOccur_append]
      rw [show (process_overpass_response s r).1.ways_out.map Way.id
            = s.ways_out.map Way.id ++ firstOccur s.way_ids (wayIdsOf r.elements)
          from hp.2.2.1]
      rw [show (process_overpass_response s r).1.way_ids
            = s.way_ids ∪ (wayIdsOf r.elements).toFinset from hp.2.2.2]
      rw [List.append_assoc]
    · rw [ih'.2.2.2, wayIdsOf_append]
      rw [show (process_overpass_response s r).1.way_ids
            = s.way_ids ∪ (wayIdsOf r.elements).toFinset from hp.2.2.2]
      rw [List.toFinset_append, Finset.union_assoc]

/-- C9: after any sequence of `process_overpass_response` calls in a run, the
id lists of `nodes_out`/`ways_out` are exactly the first occurrences of the
node/way ids of all elements seen so far (first-seen order across chunks),
contain no duplicates (each id has exactly one entry), and the seen-id sets
`node_ids`/`way_ids` equal the id sets of those entries. -/
theorem process_overpass_response_store_invariant (rs : List Response) :
    (runPayloads rs).nodes_out.map Node.id
        = firstOccur ∅ (nodeIdsOf (rs.flatMap Response.elements)) ∧
    ((runPayloads rs).nodes_out.map Node.id).Nodup ∧
    (runPayloads rs).node_ids = ((runPayloads rs).nodes_out.map Node.id).toFinset ∧
    (runPayloads rs).ways_out.map Way.id
        = firstOccur ∅ (wayIdsOf (rs.flatMap Response.elements)) ∧
    ((runPayloads rs).ways_out.map Way.id).Nodup ∧
    (runPayloads rs).way_ids = ((runPayloads rs).ways_out.map Way.id).toFinset := by
  have h := runPayloadsFrom_spec rs emptyStore
  have hn : (runPayloads rs).nodes_out.map Node.id
      = firstOccur ∅ (nodeIdsOf (rs.flatMap Response.elements)) := by
    have := h.1
    simpa [emptyStore, runPayloads] using this
  have hw : (runPayloads rs).ways_out.map Way.id
      = firstOccur ∅ (wayIdsOf (rs.flatMap Response.elements)) := by
    have := h.2.2.1
    simpa [emptyStore, runPayloads] using this
  refine ⟨hn, ?_, ?_, hw, ?_, ?_⟩
  · rw [hn]; exact firstOccur_nodup _ _
  · rw [hn, firstOccur_toFinset, Finset.sdiff_empty]
    have := h.2.1
    simpa [emptyStore, runPayloads] using this
  · rw [hw]; exact firstOccur_nodup _ _
  · rw [hw, firstOccur_toFinset, Finset.sdiff_empty]
    have := h.2.2.2
    simpa [emptyStore, runPayloads] using this

end Overpass

namespace Overpass

/-- Step equation of the retry loop on a decoded response. -/
theorem queryLoop_step_ok (oracle : ℕ → Attempt) (i fuel : ℕ) (r : Response)
    (ho : oracle i = .ok r) :
    queryLoop oracle i (fuel + 1)
      = (match r.remark with
         | some _ =>
           ((queryLoop oracle (i + 1) fuel).1,
            (queryLoop oracle (i + 1) fuel).2.1 + 1,
            (1 / 10 : ℚ) :: (queryLoop oracle (i + 1) fuel).2.2)
         | none => (.success r, 1, [])) := by
  rw [queryLoop, ho]

/-- Step equation of the retry loop on an HTTP error with a status code. -/
theorem queryLoop_step_urlError (oracle : ℕ → Attempt) (i fuel : ℕ) (c : ℕ)
    (ho : oracle i = .urlError (some c)) :
    queryLoop oracle i (fuel + 1)
      = ((queryLoop oracle (i + 1) fuel).1,
         (queryLoop oracle (i + 1) fuel).2.1 + 1,
         (if c = 429 then 20 else 1 / 10 : ℚ) :: (queryLoop oracle (i + 1) fuel).2.2) := by
  rw [queryLoop, ho]

/-- Step equation of the retry loop on the three crashing attempt outcomes. -/
theorem queryLoop_step_crash (oracle : ℕ → Attempt) (i fuel : ℕ)
    (h : oracle i = .undecodable ∨ oracle i = .urlError none ∨ oracle i = .connError) :
    queryLoop oracle i (fuel + 1) = (.crash, 1, []) := by
  rcases h with h | h | h <;> rw [queryLoop, h]

/-- The retry loop only ever succeeds with a remark-free response. -/
theorem success_no_remark (oracle : ℕ → Attempt) :
    ∀ (fuel i : ℕ) (r' : Response),
      (queryLoop oracle i fuel).1 = QueryOutcome.success r' → r'.remark = none := by
  intro fuel
  induction fuel with
  | zero =>
    intro i r' h
    simp [queryLoop] at h
  | succ fuel ih =>
    intro i r' h
    cases ho : oracle i with
    | ok r =>
      rw [queryLoop_step_ok oracle i fuel r ho] at h
      cases hr : r.remark with
      | some m =>
        rw [hr] at h
        exact ih (i + 1) r' h
      | none =>
        rw [hr] at h
        simp at h
        rw [← h]
        exact hr
    | undecodable =>
      rw [queryLoop_step_crash oracle i fuel (Or.inl ho)] at h
      simp at h
    | urlError c =>
      cases c with
      | some v =>
        rw [queryLoop_step_urlError oracle i fuel v ho] at h
        exact ih (i + 1) r' h
      | none =>
        rw [queryLoop_step_crash oracle i fuel (Or.inr (Or.inl ho))] at h
        simp at h
    | connError =>
      rw [queryLoop_step_crash oracle i fuel (Or.inr (Or.inr ho))] at h
      simp at h

/-- C7: a decoded response carrying a service-side remark is a failed attempt:
the loop records one more attempt, sleeps the short 0.1 delay and continues
with the remaining budget, and no remark-carrying payload is ever the
successful response handed to `process_overpass_response`. -/
theorem remark_counts_as_failed_attempt (oracle : ℕ → Attempt) (i fuel : ℕ)
    (r : Response) (h1 : oracle i = .ok r) (h2 : r.remark.isSome) :
    queryLoop oracle i (fuel + 1)
      = ((queryLoop oracle (i + 1) fuel).1,
         (queryLoop oracle (i + 1) fuel).2.1 + 1,
         (1 / 10 : ℚ) :: (queryLoop oracle (i + 1) fuel).2.2) ∧
    ∀ r', (queryLoop oracle i (fuel + 1)).1 = QueryOutcome.success r' →
      r'.remark = none := by
  obtain ⟨m, hm⟩ := Option.isSome_iff_exists.mp h2
  constructor
  · rw [queryLoop_step_ok oracle i fuel r h1, hm]
  · intro r' h
    exact success_no_remark oracle (fuel + 1) i r' h

/-- A decoded response carrying a remark. -/
def remResp : Response := ⟨some ("runtime error: query timed out" ), []⟩

/-- An oracle whose first attempt yields the remark response and whose later
attempts yield a clean response. -/
def remOracle : ℕ → Attempt := fun j => if j = 0 then .ok remResp else .ok ⟨none, []⟩

/-- Witness for C7 at attempt 0 with one retry left. -/
theorem remark_counts_as_failed_attempt_witness :
    remOracle 0 = .ok remResp ∧ remResp.remark.isSome = true ∧
    (queryLoop remOracle 0 (1 + 1)
        = ((queryLoop remOracle (0 + 1) 1).1,
           (queryLoop remOracle (0 + 1) 1).2.1 + 1,
           (1 / 10 : ℚ) :: (queryLoop remOracle (0 + 1) 1).2.2) ∧
     ∀ r', (queryLoop remOracle 0 (1 + 1)).1 = QueryOutcome.success r' →
       r'.remark = none) :=
  ⟨rfl, rfl, remark_counts_as_failed_attempt remOracle 0 1 remResp rfl rfl⟩

/-- C4 (code bug): a body that fails to decode is not counted as a failed
attempt and retried; the `except` handler's reference to the undefined name
`ex` raises an uncaught `NameError`, so with `retries = 3` the call makes a
single attempt, sets no failure flag and aborts the run (modelled as the
`none` store). -/
theorem decode_failure_crashes :
    perform_overpass_query emptyStore sampleLocs ["node"] 120 20
        (fun _ => .undecodable) 3 0 false
      = ⟨none, 1, [], []⟩ := by
  rfl

/-- C3 (code bug): with `retries = 1` and every attempt failing (here: failing
to decode), the claim expects 2 attempts and the failure flag; the code makes
exactly one attempt and crashes without recording the failure. -/
theorem retry_budget_broken_by_decode_failure :
    perform_overpass_query emptyStore sampleLocs ["node"] 120 20
        (fun _ => .undecodable) 1 0 false
      = ⟨none, 1, [], []⟩ := by
  rfl

/-- An oracle that is rate-limited, then fails with HTTP 500, then succeeds. -/
def httpOracle : ℕ → Attempt := fun j =>
  if j = 0 then .urlError (some 429)
  else if j = 1 then .urlError (some 500) else .ok ⟨none, []⟩

/-- C8 (code bug): a transport-level connection error (a `URLError` without an
HTTP status code) crashes the attempt loop at `429 == ex.code` instead of
being counted as a failed attempt, with `retries = 3` only one attempt is
made; for HTTP-status failures the backoff is as claimed: 20 after a 429 and
0.1 otherwise, the long backoff applying to the next attempt only. -/
theorem connection_error_crashes :
    perform_overpass_query emptyStore sampleLocs ["node"] 120 20
        (fun _ => .urlError none) 3 0 false
      = ⟨none, 1, [], []⟩ ∧
    queryLoop httpOracle 0 3 = (.success ⟨none, []⟩, 3, [20, 1 / 10]) := by
  constructor <;> rfl

end Overpass

namespace Overpass

/-- With `dry_run` a single query call only prints the built query. -/
theorem perform_query_dry (s : Store) (locations : List Location)
    (queries : List String) (timeout distance : ℤ) (oracle : ℕ → Attempt)
    (retries verbose : ℕ) :
    perform_overpass_query s locations queries timeout distance oracle retries
        verbose true
      = ⟨some s, 0, [], [build_overpass_query locations queries timeout distance]⟩ := by
  simp [perform_overpass_query]

/-- With `dry_run` the chunk loop leaves the store untouched, makes no attempt,
sleeps never and prints the query text of every chunk. -/
theorem runChunks_dry (queries : List String) (timeout distance : ℤ)
    (oracles : ℕ → ℕ → Attempt) (retries verbose : ℕ) :
    ∀ (chunks : List (List Location)) (s : Store) (i : ℕ),
      runChunks queries timeout distance oracles retries verbose true s chunks i
        = ⟨some s, 0, [],
           chunks.map fun c => build_overpass_query c queries timeout distance,
           chunks.length⟩ := by
  intro chunks
  induction chunks with
  | nil => intro s i; rfl
  | cons c rest ih =>
    intro s i
    simp only [runChunks, perform_query_dry, ih, List.map_cons, List.length_cons,
      List.singleton_append, List.nil_append, Nat.add_zero, Nat.zero_add]

/-- C5: with `dryRun = true` the run leaves the feature store completely empty
(`emptyStore`: no nodes, no ways, empty seen-id sets), performs no network
attempt and no sleep, writes no output file and issues no warning; the only
emission is the built query text of each chunk (and nothing at all when there
are no input locations). -/
theorem dry_run_leaves_store_untouched (locations_in : List Location)
    (queries : List String) (timeout distance limit : ℤ)
    (oracles : ℕ → ℕ → Attempt) (retries verbose : ℕ) :
    (run locations_in queries timeout distance limit oracles retries verbose true).store
        = some emptyStore ∧
    (run locations_in queries timeout distance limit oracles retries verbose true).attempts
        = 0 ∧
    (run locations_in queries timeout distance limit oracles retries verbose true).delays
        = [] ∧
    (run locations_in queries timeout distance limit oracles retries verbose true).wrote
        = false ∧
    (run locations_in queries timeout distance limit oracles retries verbose true).warned
        = false ∧
    (run locations_in queries timeout distance limit oracles retries verbose true).printed
        = if locations_in = [] then []
          else (chunkList locations_in limit).map
            fun c => build_overpass_query c queries timeout distance := by
  by_cases h : locations_in = []
  · simp [run, h]
  · simp [run, h, perform_overpass_queries, runChunks_dry]

end Overpass

namespace Overpass

/-- Processing one element never touches the failure flag. -/
theorem processElement_failure (acc : Store × ℕ × ℕ) (e : Element) :
    (processElement acc e).1.failure = acc.1.failure := by
  obtain ⟨s, nc, wc⟩ := acc
  cases e with
  | node i la lo => by_cases hi : i ∈ s.node_ids <;> simp [processElement, hi]
  | way i g => by_cases hi : i ∈ s.way_ids <;> simp [processElement, hi]
  | other => rfl

/-- The element fold never touches the failure flag. -/
theorem foldl_failure :
    ∀ (es : List Element) (acc : Store × ℕ × ℕ),
      (List.foldl processElement acc es).1.failure = acc.1.failure
  | [], _ => rfl
  | e :: es, acc => by
    rw [List.foldl_cons, foldl_failure es (processElement acc e),
      processElement_failure]

/-- `process_overpass_response` never touches the failure flag. -/
theorem process_response_failure (s : Store) (r : Response) :
    (process_overpass_response s r).1.failure = s.failure :=
  foldl_failure r.elements (s, 0, 0)

/-- The store returned by one non-dry query call, by retry-loop outcome. -/
theorem perform_query_cases (s : Store) (locations : List Location)
    (queries : List String) (timeout distance : ℤ) (oracle : ℕ → Attempt)
    (retries verbose : ℕ) :
    (perform_overpass_query s locations queries timeout distance oracle retries
        verbose false).store
      = match (queryLoop oracle 0 (retries + 1)).1 with
        | .success r => some (process_overpass_response s r).1
        | .exhausted => some { s with failure := true }
        | .crash => none := by
  rcases hq : queryLoop oracle 0 (retries + 1) with ⟨o, a, d⟩
  cases o <;> simp [perform_overpass_query, hq]

/-- If no chunk's retry loop crashes, the chunk loop completes: it visits every
chunk, returns a store, and that store's failure flag is set exactly when it
was already set or some chunk exhausted its retries. -/
theorem runChunks_no_crash (queries : List String) (timeout distance : ℤ)
    (oracles : ℕ → ℕ → Attempt) (retries verbose : ℕ) :
    ∀ (chunks : List (List Location)) (s : Store) (i0 : ℕ),
      (∀ j, j < chunks.length →
          (queryLoop (oracles (i0 + j)) 0 (retries + 1)).1 ≠ QueryOutcome.crash) →
      ∃ s', (runChunks queries timeout distance oracles retries verbose false
              s chunks i0).store = some s' ∧
        (runChunks queries timeout distance oracles retries verbose false
              s chunks i0).chunksRun = chunks.length ∧
        (s'.failure = true ↔ s.failure = true ∨
          ∃ j, j < chunks.length ∧
            (queryLoop (oracles (i0 + j)) 0 (retries + 1)).1 = QueryOutcome.exhausted) := by
  intro chunks
  induction chunks with
  | nil =>
    intro s i0 h
    exact ⟨s, rfl, rfl, by simp⟩
  | cons c rest ih =>
    intro s i0 h
    have h0 : (queryLoop (oracles i0) 0 (retries + 1)).1 ≠ QueryOutcome.crash := by
      have := h 0 (by simp)
      simpa using this
    have hq := perform_query_cases s c queries timeout distance (oracles i0)
      retries verbose
    have hrest : ∀ j, j < rest.length →
        (queryLoop (oracles (i0 + 1 + j)) 0 (retries + 1)).1 ≠ QueryOutcome.crash := by
      intro j hj
      have := h (j + 1) (by simpa using Nat.succ_lt_succ hj)
      have harg : i0 + (j + 1) = i0 + 1 + j := by omega
      rwa [harg] at this
    cases ho : (queryLoop (oracles i0) 0 (retries + 1)).1 with
    | success r =>
      have hq' : (perform_overpass_query s c queries timeout distance (oracles i0)
          retries verbose false).store
            = some (process_overpass_response s r).1 := by rw [hq, ho]
      obtain ⟨s', hst, hcr, hiff⟩ := ih (process_overpass_response s r).1 (i0 + 1) hrest
      refine ⟨s', ?_, ?_, ?_⟩
      · rw [runChunks]
        simp only [hq']
        exact hst
      · rw [runChunks]
        simp only [hq', hcr, List.length_cons]
      · rw [hiff, process_response_failure]
        constructor
        · rintro (hf | ⟨j, hj, hout⟩)
          · exact Or.inl hf
          · refine Or.inr ⟨j + 1, by simpa using Nat.succ_lt_succ hj, ?_⟩
            have harg : i0 + (j + 1) = i0 + 1 + j := by omega
            rwa [harg]
        · rintro (hf | ⟨j, hj, hout⟩)
          · exact Or.inl hf
          · match j, hj, hout with
            | 0, hj, hout =>
              rw [Nat.add_zero] at hout
              rw [hout] at ho
              exact absurd ho (by simp)
            | j + 1, hj, hout =>
              refine Or.inr ⟨j, Nat.lt_of_succ_lt_succ (by simpa using hj), ?_⟩
              have harg : i0 + (j + 1) = i0 + 1 + j := by omega
              rwa [← harg]
    | exhausted =>
      have hq' : (perform_overpass_query s c queries timeout distance (oracles i0)
          retries verbose false).store
            = some { s with failure := true } := by rw [hq, ho]
      obtain ⟨s', hst, hcr, hiff⟩ := ih { s with failure := true } (i0 + 1) hrest
      refine ⟨s', ?_, ?_, ?_⟩
      · rw [runChunks]
        simp only [hq']
        exact hst
      · rw [runChunks]
        simp only [hq', hcr, List.length_cons]
      · rw [hiff]
        simp only [true_or, iff_true]
        refine Iff.intro (fun _ => Or.inr ⟨0, by simp, by simpa using ho⟩) (fun _ => ?_)
        trivial
    | crash => exact absurd ho h0

/-- Handled-failure path of the claimed containment policy: if every chunk's
retry loop terminates without an uncaught exception and some chunk fails after
exhausting its retries, the run is not aborted: every chunk is still
attempted, the run completes with a final store, the result is written exactly
when some feature was accumulated, and the incompleteness warning is issued.
This covers only runs free of the crashing failure kinds. -/
theorem failed_chunk_does_not_abort (locations_in : List Location)
    (queries : List String) (timeout distance limit : ℤ)
    (oracles : ℕ → ℕ → Attempt) (retries verbose : ℕ)
    (hne : locations_in ≠ [])
    (hnc : ∀ j, j < (chunkList locations_in limit).length →
        (queryLoop (oracles j) 0 (retries + 1)).1 ≠ QueryOutcome.crash)
    (hex : ∃ j, j < (chunkList locations_in limit).length ∧
        (queryLoop (oracles j) 0 (retries + 1)).1 = QueryOutcome.exhausted) :
    ∃ s, (run locations_in queries timeout distance limit oracles retries
            verbose false).store = some s ∧
      (run locations_in queries timeout distance limit oracles retries
            verbose false).chunksRun = (chunkList locations_in limit).length ∧
      (run locations_in queries timeout distance limit oracles retries
            verbose false).wrote = decide (s.nodes_out ≠ [] ∨ s.ways_out ≠ []) ∧
      (run locations_in queries timeout distance limit oracles retries
            verbose false).warned = true := by
  obtain ⟨s', hst, hcr, hiff⟩ := runChunks_no_crash queries timeout distance
    oracles retries verbose (chunkList locations_in limit) emptyStore 0
    (by intro j hj; simpa using hnc j hj)
  have hfail : s'.failure = true := by
    rw [hiff]
    refine Or.inr ?_
    obtain ⟨j, hj, hout⟩ := hex
    exact ⟨j, hj, by simpa using hout⟩
  have hos : (perform_overpass_queries emptyStore locations_in queries timeout
      distance limit oracles retries verbose false).store = some s' := hst
  have hocr : (perform_overpass_queries emptyStore locations_in queries timeout
      distance limit oracles retries verbose false).chunksRun
        = (chunkList locations_in limit).length := hcr
  refine ⟨s', ?_, ?_, ?_, ?_⟩ <;>
    · rw [run, if_neg hne]
      simp only [hos, hocr, hfail, if_neg Bool.false_ne_true]
      try rfl

/-- Oracles making chunk 0 exhaust its single attempt with HTTP 504 and every
later chunk succeed with one node. -/
def mixedOracles : ℕ → ℕ → Attempt := fun i _ =>
  if i = 0 then .urlError (some 504) else .ok ⟨none, [.node 7 1 2]⟩

/-- Instance of `failed_chunk_does_not_abort`: three locations in two chunks,
chunk 0 exhausts, chunk 1 succeeds; the run completes, writes and warns. -/
theorem failed_chunk_does_not_abort_witness :
    sampleLocs ≠ [] ∧
    (∀ j, j < (chunkList sampleLocs (2 : ℤ)).length →
        (queryLoop (mixedOracles j) 0 (0 + 1)).1 ≠ QueryOutcome.crash) ∧
    (∃ j, j < (chunkList sampleLocs (2 : ℤ)).length ∧
        (queryLoop (mixedOracles j) 0 (0 + 1)).1 = QueryOutcome.exhausted) ∧
    ∃ s, (run sampleLocs ["node"] 120 20 2 mixedOracles 0 0 false).store = some s ∧
      (run sampleLocs ["node"] 120 20 2 mixedOracles 0 0 false).chunksRun
          = (chunkList sampleLocs (2 : ℤ)).length ∧
      (run sampleLocs ["node"] 120 20 2 mixedOracles 0 0 false).wrote
          = decide (s.nodes_out ≠ [] ∨ s.ways_out ≠ []) ∧
      (run sampleLocs ["node"] 120 20 2 mixedOracles 0 0 false).warned = true :=
  ⟨by decide, by decide, ⟨0, by decide, by decide⟩,
   failed_chunk_does_not_abort sampleLocs ["node"] 120 20 2 mixedOracles 0 0
     (by decide) (by decide) ⟨0, by decide, by decide⟩⟩

end Overpass

namespace Overpass

/-- A value matched by the quoted-decimal pattern is nonnegative. -/
theorem matchDecimalAt_nonneg (lit cs : List Char) (q : ℚ)
    (h : matchDecimalAt lit cs = some q) : 0 ≤ q := by
  simp only [matchDecimalAt] at h
  split at h
  · split at h
    · exact absurd h (by simp)
    · split at h
      · split at h
        · exact absurd h (by simp)
        · split at h
          · rw [Option.some_inj] at h
            rw [← h]
            positivity
          · exact absurd h (by simp)
      · exact absurd h (by simp)
  · exact absurd h (by simp)

/-- A value found by the regex search is nonnegative. -/
theorem reSearchDecimal_nonneg (lit : List Char) :
    ∀ (cs : List Char) (q : ℚ), reSearchDecimal lit cs = some q → 0 ≤ q := by
  intro cs
  induction cs with
  | nil =>
    intro q h
    exact matchDecimalAt_nonneg lit [] q (by simpa [reSearchDecimal] using h)
  | cons c rest ih =>
    intro q h
    rw [reSearchDecimal] at h
    cases hm : matchDecimalAt lit (c :: rest) with
    | some v =>
      rw [hm] at h
      simp at h
      rw [← h]
      exact matchDecimalAt_nonneg lit (c :: rest) v hm
    | none =>
      rw [hm] at h
      exact ih q h

/-- C10: a GPX line contributes a location only when both regex searches for
`lat="digits.digits"` and `lon="digits.digits"` succeed, and every location
obtained by `parse_gpx_file` therefore has nonnegative latitude and
longitude (negative or integer-valued coordinates never match the pattern
and such lines are silently skipped). -/
theorem parse_gpx_file_nonneg :
    (∀ (lines : List (List Char)) (loc : Location),
        loc ∈ parse_gpx_file lines → 0 ≤ loc.lat ∧ 0 ≤ loc.lon) ∧
    (∀ (line : List Char) (loc : Location), parseGpxLine line = some loc →
        reSearchDecimal latPat line = some loc.lat ∧
        reSearchDecimal lonPat line = some loc.lon) := by
  have hline : ∀ (line : List Char) (loc : Location), parseGpxLine line = some loc →
      reSearchDecimal latPat line = some loc.lat ∧
      reSearchDecimal lonPat line = some loc.lon := by
    intro line loc h
    rw [parseGpxLine] at h
    split at h
    · exact absurd h (by simp)
    · split at h
      · exact absurd h (by simp)
      · cases hla : reSearchDecimal latPat line with
        | none => rw [hla] at h; exact absurd h (by simp)
        | some la =>
          rw [hla] at h
          cases hlo : reSearchDecimal lonPat line with
          | none => rw [hlo] at h; exact absurd h (by simp)
          | some lo =>
            rw [hlo] at h
            have h' : (⟨la, lo⟩ : Location) = loc := by simpa using h
            subst h'
            exact ⟨rfl, rfl⟩
  refine ⟨?_, hline⟩
  intro lines loc hmem
  rw [parse_gpx_file, List.mem_filterMap] at hmem
  obtain ⟨line, _, hp⟩ := hmem
  obtain ⟨hla, hlo⟩ := hline line loc hp
  exact ⟨reSearchDecimal_nonneg latPat line loc.lat hla,
         reSearchDecimal_nonneg lonPat line loc.lon hlo⟩

/-- A sample GPX waypoint line. -/
def gpxSampleLine : List Char := String.toList ("<wpt lat=\"51.5\" lon=\"13.25\">" )

/-- The location the parser extracts from `gpxSampleLine` (51.5, 13.25),
written as the unevaluated value the model computes. -/
def sampleParsedLoc : Location :=
  ⟨(digitsVal ['5', '1'] : ℚ)
      + (digitsVal ['5'] : ℚ) / (10 : ℚ) ^ (['5'] : List Char).length,
   (digitsVal ['1', '3'] : ℚ)
      + (digitsVal ['2', '5'] : ℚ) / (10 : ℚ) ^ (['2', '5'] : List Char).length⟩

/-- Witness for C10: the sample line is parsed and yields a nonnegative
location. -/
theorem parse_gpx_file_nonneg_witness :
    sampleParsedLoc ∈ parse_gpx_file [gpxSampleLine] ∧
    0 ≤ sampleParsedLoc.lat ∧ 0 ≤ sampleParsedLoc.lon :=
  ⟨List.Mem.head _,
   (parse_gpx_file_nonneg.1 [gpxSampleLine] sampleParsedLoc (List.Mem.head _)).1,
   (parse_gpx_file_nonneg.1 [gpxSampleLine] sampleParsedLoc (List.Mem.head _)).2⟩

end Overpass

namespace Overpass

/-- Four sample locations, giving four one-location chunks at `limit = 1`. -/
def sampleLocs4 : List Location := [⟨51, 13⟩, ⟨51, 14⟩, ⟨52, 13⟩, ⟨52, 14⟩]

/-- Oracles making chunk 0 succeed with one node, chunk 1 exhaust its single
attempt with HTTP 504, chunk 2 return an undecodable body and every later
chunk succeed. -/
def abortOracles : ℕ → ℕ → Attempt := fun i _ =>
  if i = 0 then .ok ⟨none, [.node 7 1 2]⟩
  else if i = 1 then .urlError (some 504) else
  if i = 2 then .undecodable else .ok ⟨none, []⟩

/-- C6 (code bug): a run in which chunk 1 fails after exhausting its retries is
aborted anyway when chunk 2's body fails to decode — the handler's undefined
name `ex` (line 277) raises an uncaught `NameError`, so of the four chunks only
three are attempted, the node accumulated from chunk 0 is never written and no
incompleteness warning is printed, contradicting the claimed containment
(`store = none` models the escaped exception; `wrote` and `warned` are both
false; `chunksRun = 3` against 4 chunks). -/
theorem exhausted_chunk_then_decode_failure_aborts_run :
    run sampleLocs4 ["node"] 120 20 1 abortOracles 0 0 false
      = ⟨none, 3, [1 / 10], [], 3, false, false⟩ ∧
    (chunkList sampleLocs4 (1 : ℤ)).length = 4 := by
  constructor <;> rfl

end Overpass
